import Mathlib

/-!
Shallow embedding of the orchestration core of `metagpt/team.py`:
the `TaskMessage` / `WorkflowOrchestrator` pipeline classes and the
budget-guarded round loop of `Team.run`.

Modelling conventions:
* Python `int` is `Int`, Python `float` arithmetic on small integer
  counts (`len(completed) / len(workflow_tasks)`) is exact, so it is
  modelled with `ℚ`.
* A pydantic `BaseModel` compares with `==` field-by-field, so
  `TaskMessage` derives structural `DecidableEq`; the `metadata` dict is
  modelled as an association list (no claim touches it).
* `list.sort(key=lambda t: t.priority, reverse=True)` is a stable sort
  (descending by priority, ties keep list order).  The output of a
  stable sort is uniquely determined by the key order and the input
  order, so it is modelled by the stable insertion sort
  `sortDescStable` below.
* Python `dict[str, list[TaskMessage]]` is modelled as an association
  list with in-place overwrite on an existing key (`wfInsert`).
-/

/-- TaskMessage from `team.py`: pydantic model with structural equality. -/
structure TaskMessage where
  task_id : String
  task_type : String
  content : String
  sender : String
  recipient : Option String
  priority : Int
  metadata : List (String × String)
deriving DecidableEq

/-- One entry of the `results` list built by `execute_workflow`:
the dict `{"task_id": ..., "status": "completed", "result": "Task executed"}`. -/
structure TaskResult where
  task_id : String
  status : String
  result : String
deriving DecidableEq

/-- Return value of `get_workflow_status`: either the `{"status": "not_found"}`
dict or the full status dict with totals and progress. -/
inductive WorkflowStatus where
  | not_found : WorkflowStatus
  | active (total_tasks : Nat) (completed : Nat) (pending : Nat) (progress : ℚ)
deriving DecidableEq

/-- Return value of `execute_workflow`: either the `{"error": ...}` dict or the
`{"workflow_id": ..., "status": ..., "results": ...}` dict. -/
inductive ExecOutcome where
  | error (msg : String)
  | success (workflow_id : String) (status : String) (results : List TaskResult)
deriving DecidableEq

/-- Stable insert used by `sortDescStable`: the inserted element comes from an
earlier position of the unsorted input, so on ties it is placed before. -/
def orderedInsertDesc (a : TaskMessage) : List TaskMessage → List TaskMessage
  | [] => [a]
  | u :: us => if u.priority ≤ a.priority then a :: u :: us else u :: orderedInsertDesc a us

/-- Model of Python `list.sort(key=lambda t: t.priority, reverse=True)`:
the unique stable sort by descending priority, as a stable insertion sort. -/
def sortDescStable : List TaskMessage → List TaskMessage
  | [] => []
  | a :: l => orderedInsertDesc a (sortDescStable l)

/-- Overwrite-or-append update of the `active_workflows` dict. -/
def wfInsert (k : String) (v : List TaskMessage) :
    List (String × List TaskMessage) → List (String × List TaskMessage)
  | [] => [(k, v)]
  | (k1, v1) :: rest => if k1 = k then (k, v) :: rest else (k1, v1) :: wfInsert k v rest

/-- Lookup in the `active_workflows` dict; `none` models `workflow_id not in dict`. -/
def wfLookup (k : String) : List (String × List TaskMessage) → Option (List TaskMessage)
  | [] => none
  | (k1, v1) :: rest => if k1 = k then some v1 else wfLookup k rest

/-- Mutable state of a `WorkflowOrchestrator` (the unused `team` field is not
read by any of the orchestration methods and is omitted). -/
structure WorkflowOrchestrator where
  task_queue : List TaskMessage
  completed_tasks : List TaskMessage
  active_workflows : List (String × List TaskMessage)
deriving DecidableEq

/-- A fresh orchestrator: all three collections start empty
(pydantic `default_factory=list` / `default_factory=dict`). -/
def emptyOrch : WorkflowOrchestrator := ⟨[], [], []⟩

/-- WorkflowOrchestrator.create_task: pure factory; the uuid4 string is
generated externally, so it is passed as an argument.  No orchestrator state
is touched. -/
def create_task (task_id task_type content sender : String)
    (recipient : Option String := none) (priority : Int := 0)
    (metadata : List (String × String) := []) : TaskMessage :=
  ⟨task_id, task_type, content, sender, recipient, priority, metadata⟩

/-- WorkflowOrchestrator.add_task: append to `task_queue`, then
`task_queue.sort(key=lambda t: t.priority, reverse=True)`. -/
def add_task (t : TaskMessage) (s : WorkflowOrchestrator) : WorkflowOrchestrator :=
  { s with task_queue := sortDescStable (s.task_queue ++ [t]) }

/-- WorkflowOrchestrator.get_next_task: `pop(0)` of the queue when nonempty,
else `None`; returns the popped task together with the new state. -/
def get_next_task (s : WorkflowOrchestrator) :
    Option TaskMessage × WorkflowOrchestrator :=
  match s.task_queue with
  | [] => (none, s)
  | t :: rest => (some t, { s with task_queue := rest })

/-- WorkflowOrchestrator.complete_task: append the task object to
`completed_tasks` (the queue is not touched). -/
def complete_task (t : TaskMessage) (s : WorkflowOrchestrator) : WorkflowOrchestrator :=
  { s with completed_tasks := s.completed_tasks ++ [t] }

/-- WorkflowOrchestrator.create_workflow: `active_workflows[workflow_id] = tasks`
(silent overwrite of an existing key), then `add_task` for every task. -/
def create_workflow (workflow_id : String) (tasks : List TaskMessage)
    (s : WorkflowOrchestrator) : WorkflowOrchestrator :=
  tasks.foldl (fun acc t => add_task t acc)
    { s with active_workflows := wfInsert workflow_id tasks s.active_workflows }

/-- WorkflowOrchestrator.get_workflow_status: `not_found` for unregistered ids;
otherwise counts workflow tasks by `==` membership (`t in self.completed_tasks`,
`t in self.task_queue` — pydantic structural equality) and computes
`len(completed) / len(workflow_tasks) if workflow_tasks else 0`. -/
def get_workflow_status (workflow_id : String) (s : WorkflowOrchestrator) :
    WorkflowStatus :=
  match wfLookup workflow_id s.active_workflows with
  | none => .not_found
  | some workflow_tasks =>
    let completed := workflow_tasks.filter (fun t => decide (t ∈ s.completed_tasks))
    let pending := workflow_tasks.filter (fun t => decide (t ∈ s.task_queue))
    .active workflow_tasks.length completed.length pending.length
      (if workflow_tasks = [] then 0
       else (completed.length : ℚ) / (workflow_tasks.length : ℚ))

/-- Loop body of `execute_workflow` (`while True: task = get_next_task(); if
not task: break; ...; complete_task(task)`).  Each iteration pops one task, so
the loop makes exactly `len(task_queue)` iterations; it is modelled with that
much fuel, which `execLoop_drains` below proves sufficient. -/
def execLoop : Nat → WorkflowOrchestrator → List TaskResult × WorkflowOrchestrator
  | 0, s => ([], s)
  | fuel + 1, s =>
    match get_next_task s with
    | (none, s1) => ([], s1)
    | (some t, s1) =>
      let s2 := complete_task t s1
      let rs := execLoop fuel s2
      (⟨t.task_id, "completed", "Task executed"⟩ :: rs.1, rs.2)

/-- WorkflowOrchestrator.execute_workflow: error result for an unregistered id,
otherwise drain the whole queue, recording one result per popped task. -/
def execute_workflow (workflow_id : String) (s : WorkflowOrchestrator) :
    ExecOutcome × WorkflowOrchestrator :=
  match wfLookup workflow_id s.active_workflows with
  | none => (.error "Workflow not found", s)
  | some _ =>
    let rs := execLoop s.task_queue.length s
    (.success workflow_id "completed" rs.1, rs.2)

/-! Budget-guarded round loop of `Team.run`.  The environment collaborator
(`env.is_idle`, `await env.run()`) and the cost accountant (`total_cost`)
are external, so the loop is parameterised by an opaque environment type
with an idle predicate and a one-round step that may also change the cost. -/

/-- State visible to the `Team.run` loop: the external environment plus the
cost accountant's `total_cost`. -/
structure TeamRunState (E : Type) where
  env : E
  total_cost : ℚ
deriving DecidableEq

/-- Team._check_balance: raises `NoMoneyException(total_cost, ...)` when
`total_cost >= max_budget`. -/
def check_balance (total_cost max_budget : ℚ) : Except ℚ Unit :=
  if max_budget ≤ total_cost then .error total_cost else .ok ()

/-- Result of the `Team.run` loop: normal termination (idle or rounds
exhausted) or the propagated `NoMoneyException` with its cost. -/
inductive RunOutcome (E : Type) where
  | finished (final : TeamRunState E)
  | noMoney (cost : ℚ)

/-- Team.run round loop: `while n_round > 0: if env.is_idle: break;
n_round -= 1; self._check_balance(); await self.env.run()`.  The second
component records the state at each invocation of the execution delegate
`env.run` (each round body that actually begins). -/
def teamRun {E : Type} (isIdle : E → Bool) (envRun : TeamRunState E → TeamRunState E)
    (max_budget : ℚ) : Nat → TeamRunState E → RunOutcome E × List (TeamRunState E)
  | 0, st => (.finished st, [])
  | n + 1, st =>
    if isIdle st.env then (.finished st, [])
    else
      match check_balance st.total_cost max_budget with
      | .error c => (.noMoney c, [])
      | .ok _ =>
        let rest := teamRun isIdle envRun max_budget n (envRun st)
        (rest.1, st :: rest.2)

/-! Derived notions used to state the claims. -/

/-- Insertion of a latest-added task into an already priority-sorted queue:
it goes after every queued task of greater or equal priority (stability) and
before the strictly lower-priority tail. -/
def insertTailDesc (t : TaskMessage) : List TaskMessage → List TaskMessage
  | [] => [t]
  | u :: us => if t.priority ≤ u.priority then u :: insertTailDesc t us else t :: u :: us

/-- Maximum priority occurring in a task list (`0` for the empty list, which
no claim uses). -/
def maxPriority : List TaskMessage → Int
  | [] => 0
  | [t] => t.priority
  | t :: u :: ts => max t.priority (maxPriority (u :: ts))

/-- Ids of the completed tasks: the "completed set" of the specification. -/
def completedIds (s : WorkflowOrchestrator) : List String :=
  s.completed_tasks.map (fun t => t.task_id)

/-- Descending-priority sortedness of a task list. -/
abbrev QSorted (l : List TaskMessage) : Prop :=
  l.Pairwise (fun a b => b.priority ≤ a.priority)

/-- Adding a whole list of tasks in order to a fresh orchestrator. -/
def addTasks (ts : List TaskMessage) : WorkflowOrchestrator :=
  ts.foldl (fun s t => add_task t s) emptyOrch

/-- Status string of a `get_workflow_status` result. -/
def statusName : WorkflowStatus → String
  | .not_found => "not_found"
  | .active _ _ _ _ => "active"

/-- The `completed` count of a status (0 for `not_found`). -/
def completedCountOf : WorkflowStatus → Nat
  | .not_found => 0
  | .active _ c _ _ => c

/-- The `pending` count of a status (0 for `not_found`). -/
def pendingCountOf : WorkflowStatus → Nat
  | .not_found => 0
  | .active _ _ p _ => p

/-- The `progress` field of a status (0 for `not_found`). -/
def progressOf : WorkflowStatus → ℚ
  | .not_found => 0
  | .active _ _ _ p => p

/-- The queue/completed-set disjointness invariant of the specification:
no queued task has its id in the completed set. -/
def queueCompletedDisjoint (s : WorkflowOrchestrator) : Prop :=
  ∀ t ∈ s.task_queue, ∀ u ∈ s.completed_tasks, u.task_id ≠ t.task_id

instance (s : WorkflowOrchestrator) : Decidable (queueCompletedDisjoint s) := by
  unfold queueCompletedDisjoint; infer_instance

/-- One public mutation of the orchestrator, with the usage guards under which
the specification asserts its disjointness invariant: tasks are only added
while their id is not yet completed, and `complete_task` is only applied to a
task that is not (by id) still queued — as `execute_workflow` does after
popping. -/
inductive OrchStep : WorkflowOrchestrator → WorkflowOrchestrator → Prop
  | add (t : TaskMessage) (s : WorkflowOrchestrator)
      (h : t.task_id ∉ completedIds s) : OrchStep s (add_task t s)
  | next (s : WorkflowOrchestrator) : OrchStep s (get_next_task s).2
  | complete (t : TaskMessage) (s : WorkflowOrchestrator)
      (h : ∀ u ∈ s.task_queue, u.task_id ≠ t.task_id) : OrchStep s (complete_task t s)
  | createWf (wid : String) (ts : List TaskMessage) (s : WorkflowOrchestrator)
      (h : ∀ t ∈ ts, t.task_id ∉ completedIds s) : OrchStep s (create_workflow wid ts s)
  | execWf (wid : String) (s : WorkflowOrchestrator) :
      OrchStep s (execute_workflow wid s).2

/-- States reachable from a fresh orchestrator by guarded public mutations. -/
inductive OrchReachable : WorkflowOrchestrator → Prop
  | init : OrchReachable emptyOrch
  | step {s s1 : WorkflowOrchestrator} :
      OrchReachable s → OrchStep s s1 → OrchReachable s1

/-- Concrete tasks for the specification's scenarios. -/
def wfTask1 : TaskMessage := ⟨"t1", "finance", "report q3", "cfo", none, 1, []⟩

def wfTask2 : TaskMessage := ⟨"t2", "hr", "hire dev", "cto", none, 5, []⟩

def prTask1 : TaskMessage := ⟨"p1", "a", "w1", "s", none, 1, []⟩

def prTask3a : TaskMessage := ⟨"p3a", "b", "w2", "s", none, 3, []⟩

def prTask3b : TaskMessage := ⟨"p3b", "c", "w3", "s", none, 3, []⟩

def prTask2 : TaskMessage := ⟨"p2", "d", "w4", "s", none, 2, []⟩

/-! Lemmas about the stable sort and stable insertion. -/

theorem orderedInsertDesc_perm (a : TaskMessage) (l : List TaskMessage) :
    (orderedInsertDesc a l).Perm (a :: l) := by
  induction l with
  | nil => simp [orderedInsertDesc]
  | cons u us ih =>
    unfold orderedInsertDesc
    split
    · exact List.Perm.refl _
    · exact (List.Perm.cons u ih).trans (List.Perm.swap a u us)

theorem sortDescStable_perm (l : List TaskMessage) :
    (sortDescStable l).Perm l := by
  induction l with
  | nil => simp [sortDescStable]
  | cons a l ih =>
    exact (orderedInsertDesc_perm a (sortDescStable l)).trans (ih.cons a)

theorem mem_insertTailDesc {u t : TaskMessage} {l : List TaskMessage} :
    u ∈ insertTailDesc t l ↔ u = t ∨ u ∈ l := by
  induction l with
  | nil => simp [insertTailDesc]
  | cons v vs ih =>
    unfold insertTailDesc
    split
    · rw [List.mem_cons, ih, List.mem_cons]
      tauto
    · simp

theorem insertTailDesc_perm (t : TaskMessage) (l : List TaskMessage) :
    (insertTailDesc t l).Perm (l ++ [t]) := by
  induction l with
  | nil => simp [insertTailDesc]
  | cons v vs ih =>
    unfold insertTailDesc
    split
    · exact ih.cons v
    · exact (List.Perm.swap v t vs).trans
        (((List.perm_append_singleton t vs).symm).cons v)

theorem QSorted_insertTailDesc {q : List TaskMessage} (t : TaskMessage)
    (h : QSorted q) : QSorted (insertTailDesc t q) := by
  induction q with
  | nil => simp [insertTailDesc, QSorted]
  | cons u us ih =>
    rw [QSorted, List.pairwise_cons] at h
    unfold insertTailDesc
    split
    · rename_i hle
      rw [QSorted, List.pairwise_cons]
      refine ⟨?_, ih h.2⟩
      intro v hv
      rcases mem_insertTailDesc.mp hv with h1 | h1
      · exact h1 ▸ hle
      · exact h.1 v h1
    · rename_i hgt
      push_neg at hgt
      rw [QSorted, List.pairwise_cons, List.pairwise_cons]
      refine ⟨?_, h.1, h.2⟩
      intro v hv
      rcases List.mem_cons.mp hv with h1 | h1
      · exact h1 ▸ le_of_lt hgt
      · exact le_trans (h.1 v h1) (le_of_lt hgt)

theorem sortDescStable_append_singleton {q : List TaskMessage} (t : TaskMessage)
    (h : QSorted q) : sortDescStable (q ++ [t]) = insertTailDesc t q := by
  induction q with
  | nil => simp [sortDescStable, orderedInsertDesc, insertTailDesc]
  | cons a q1 ih =>
    rw [QSorted, List.pairwise_cons] at h
    have hq1 : sortDescStable (q1 ++ [t]) = insertTailDesc t q1 := ih h.2
    show orderedInsertDesc a (sortDescStable (q1 ++ [t])) = insertTailDesc t (a :: q1)
    rw [hq1]
    by_cases hta : t.priority ≤ a.priority
    · have hhead : ∀ v vs, insertTailDesc t q1 = v :: vs → v.priority ≤ a.priority := by
        intro v vs hv
        have hmem : v ∈ insertTailDesc t q1 := by
          rw [hv]; exact List.mem_cons_self v vs
        rcases mem_insertTailDesc.mp hmem with h1 | h1
        · exact h1 ▸ hta
        · exact h.1 v h1
      match hm : insertTailDesc t q1 with
      | [] =>
        exfalso
        have : t ∈ insertTailDesc t q1 := mem_insertTailDesc.mpr (Or.inl rfl)
        rw [hm] at this
        exact List.not_mem_nil t this
      | v :: vs =>
        rw [orderedInsertDesc, if_pos (hhead v vs hm), insertTailDesc, if_pos hta, hm]
    · push_neg at hta
      have hq1t : insertTailDesc t q1 = t :: q1 := by
        cases q1 with
        | nil => rfl
        | cons u us =>
          have hlt : u.priority < t.priority :=
            lt_of_le_of_lt (h.1 u (List.mem_cons_self u us)) hta
          rw [insertTailDesc, if_neg (not_le.mpr hlt)]
      rw [hq1t, orderedInsertDesc, if_neg (not_le.mpr hta), insertTailDesc,
        if_neg (not_le.mpr hta)]
      congr 1
      cases q1 with
      | nil => rfl
      | cons u us =>
        rw [orderedInsertDesc, if_pos (h.1 u (List.mem_cons_self u us))]

theorem filter_insertTailDesc (c : Int) {q : List TaskMessage} (t : TaskMessage)
    (h : QSorted q) :
    (insertTailDesc t q).filter (fun u => decide (u.priority = c)) =
      q.filter (fun u => decide (u.priority = c)) ++
        (if t.priority = c then [t] else []) := by
  induction q with
  | nil =>
    simp only [insertTailDesc, List.filter, List.nil_append]
    split <;> simp_all
  | cons u us ih =>
    rw [QSorted, List.pairwise_cons] at h
    unfold insertTailDesc
    split
    · rw [List.filter_cons, List.filter_cons]
      split <;> simp [ih h.2]
    · rename_i hgt
      push_neg at hgt
      by_cases htc : t.priority = c
      · have hnone : (u :: us).filter (fun v => decide (v.priority = c)) = [] := by
          rw [List.filter_eq_nil_iff]
          intro v hv
          have hvu : v.priority ≤ u.priority := by
            rcases List.mem_cons.mp hv with h1 | h1
            · exact h1 ▸ le_refl _
            · exact h.1 v h1
          simp only [decide_eq_true_eq]
          omega
        rw [List.filter_cons, if_pos (by simp [htc]), hnone]
        simp [htc]
      · rw [List.filter_cons, if_neg (by simp [htc])]
        simp [htc]

/-! Lemmas about the orchestrator operations. -/

theorem add_task_queue_perm (t : TaskMessage) (s : WorkflowOrchestrator) :
    (add_task t s).task_queue.Perm (s.task_queue ++ [t]) :=
  sortDescStable_perm (s.task_queue ++ [t])

theorem add_task_completed (t : TaskMessage) (s : WorkflowOrchestrator) :
    (add_task t s).completed_tasks = s.completed_tasks := rfl

theorem add_task_workflows (t : TaskMessage) (s : WorkflowOrchestrator) :
    (add_task t s).active_workflows = s.active_workflows := rfl

theorem add_task_queue_sorted (t : TaskMessage) {s : WorkflowOrchestrator}
    (h : QSorted s.task_queue) :
    (add_task t s).task_queue = insertTailDesc t s.task_queue :=
  sortDescStable_append_singleton t h

theorem foldl_add_task_queue_perm (ts : List TaskMessage) :
    ∀ s : WorkflowOrchestrator,
      (ts.foldl (fun acc t => add_task t acc) s).task_queue.Perm
        (s.task_queue ++ ts) := by
  induction ts with
  | nil => intro s; simp
  | cons t ts ih =>
    intro s
    refine (ih (add_task t s)).trans ?_
    refine ((add_task_queue_perm t s).append_right ts).trans ?_
    simp [List.append_assoc]

theorem foldl_add_task_completed (ts : List TaskMessage) :
    ∀ s : WorkflowOrchestrator,
      (ts.foldl (fun acc t => add_task t acc) s).completed_tasks =
        s.completed_tasks := by
  induction ts with
  | nil => intro s; rfl
  | cons t ts ih => intro s; exact ih (add_task t s)

theorem foldl_add_task_workflows (ts : List TaskMessage) :
    ∀ s : WorkflowOrchestrator,
      (ts.foldl (fun acc t => add_task t acc) s).active_workflows =
        s.active_workflows := by
  induction ts with
  | nil => intro s; rfl
  | cons t ts ih => intro s; exact ih (add_task t s)

theorem wfLookup_wfInsert_self (k : String) (v : List TaskMessage)
    (m : List (String × List TaskMessage)) : wfLookup k (wfInsert k v m) = some v := by
  induction m with
  | nil => simp [wfInsert, wfLookup]
  | cons p rest ih =>
    obtain ⟨k1, v1⟩ := p
    unfold wfInsert
    by_cases hk : k1 = k
    · rw [if_pos hk]
      simp [wfLookup]
    · rw [if_neg hk]
      unfold wfLookup
      rw [if_neg hk]
      exact ih

theorem create_workflow_queue_perm (wid : String) (ts : List TaskMessage)
    (s : WorkflowOrchestrator) :
    (create_workflow wid ts s).task_queue.Perm (s.task_queue ++ ts) :=
  foldl_add_task_queue_perm ts _

theorem create_workflow_completed (wid : String) (ts : List TaskMessage)
    (s : WorkflowOrchestrator) :
    (create_workflow wid ts s).completed_tasks = s.completed_tasks :=
  foldl_add_task_completed ts _

theorem create_workflow_workflows (wid : String) (ts : List TaskMessage)
    (s : WorkflowOrchestrator) :
    (create_workflow wid ts s).active_workflows =
      wfInsert wid ts s.active_workflows :=
  foldl_add_task_workflows ts _

/-- Payload of one `results` entry of `execute_workflow`. -/
def mkTaskResult (t : TaskMessage) : TaskResult :=
  ⟨t.task_id, "completed", "Task executed"⟩

theorem execLoop_drains : ∀ (n : Nat) (s : WorkflowOrchestrator),
    s.task_queue.length ≤ n →
    execLoop n s =
      (s.task_queue.map mkTaskResult,
       { s with task_queue := [],
                completed_tasks := s.completed_tasks ++ s.task_queue }) := by
  intro n
  induction n with
  | zero =>
    rintro ⟨q, c, w⟩ h
    have hq : q = [] := List.length_eq_zero.mp (Nat.le_zero.mp h)
    subst hq
    simp [execLoop]
  | succ n ih =>
    rintro ⟨q, c, w⟩ h
    cases q with
    | nil => simp [execLoop, get_next_task]
    | cons t rest =>
      have hstep :
          execLoop (n + 1) ⟨t :: rest, c, w⟩ =
            (mkTaskResult t :: (execLoop n ⟨rest, c ++ [t], w⟩).1,
             (execLoop n ⟨rest, c ++ [t], w⟩).2) := by
        simp [execLoop, get_next_task, complete_task, mkTaskResult]
      have hlen : (⟨rest, c ++ [t], w⟩ : WorkflowOrchestrator).task_queue.length ≤ n := by
        simpa using Nat.succ_le_succ_iff.mp h
      rw [hstep, ih ⟨rest, c ++ [t], w⟩ hlen]
      simp

theorem execute_workflow_spec (wid : String) (s : WorkflowOrchestrator)
    (ts : List TaskMessage) (h : wfLookup wid s.active_workflows = some ts) :
    execute_workflow wid s =
      (.success wid "completed" (s.task_queue.map mkTaskResult),
       { s with task_queue := [],
                completed_tasks := s.completed_tasks ++ s.task_queue }) := by
  unfold execute_workflow
  rw [h]
  rw [execLoop_drains s.task_queue.length s (le_refl _)]

/-! Lemmas supporting the priority-queue ordering claim. -/

theorem foldl_insertTailDesc_sorted (ts : List TaskMessage) :
    ∀ q : List TaskMessage, QSorted q →
      QSorted (ts.foldl (fun q1 t => insertTailDesc t q1) q) := by
  induction ts with
  | nil => intro q h; exact h
  | cons t ts ih => intro q h; exact ih _ (QSorted_insertTailDesc t h)

theorem foldl_insertTailDesc_perm (ts : List TaskMessage) :
    ∀ q : List TaskMessage,
      (ts.foldl (fun q1 t => insertTailDesc t q1) q).Perm (q ++ ts) := by
  induction ts with
  | nil => intro q; simp
  | cons t ts ih =>
    intro q
    refine (ih (insertTailDesc t q)).trans ?_
    refine ((insertTailDesc_perm t q).append_right ts).trans ?_
    simp [List.append_assoc]

theorem foldl_insertTailDesc_filter (c : Int) (ts : List TaskMessage) :
    ∀ q : List TaskMessage, QSorted q →
      (ts.foldl (fun q1 t => insertTailDesc t q1) q).filter
          (fun u => decide (u.priority = c)) =
        q.filter (fun u => decide (u.priority = c)) ++
          ts.filter (fun u => decide (u.priority = c)) := by
  induction ts with
  | nil => intro q h; simp
  | cons t ts ih =>
    intro q h
    have step := ih (insertTailDesc t q) (QSorted_insertTailDesc t h)
    rw [List.foldl_cons, step, filter_insertTailDesc c t h, List.filter_cons]
    by_cases htc : t.priority = c
    · rw [if_pos htc, if_pos (by simp [htc])]
      simp
    · rw [if_neg htc, if_neg (by simp [htc])]
      simp

theorem foldl_add_task_queue_eq (ts : List TaskMessage) :
    ∀ s : WorkflowOrchestrator, QSorted s.task_queue →
      (ts.foldl (fun acc t => add_task t acc) s).task_queue =
        ts.foldl (fun q t => insertTailDesc t q) s.task_queue := by
  induction ts with
  | nil => intro s _; rfl
  | cons t ts ih =>
    intro s h
    rw [List.foldl_cons, List.foldl_cons,
      ih (add_task t s) (by rw [add_task_queue_sorted t h]; exact QSorted_insertTailDesc t h),
      add_task_queue_sorted t h]

theorem QSorted_head_max {h1 : TaskMessage} {rest : List TaskMessage}
    (h : QSorted (h1 :: rest)) : ∀ u ∈ h1 :: rest, u.priority ≤ h1.priority := by
  rw [QSorted, List.pairwise_cons] at h
  intro u hu
  rcases List.mem_cons.mp hu with h2 | h2
  · exact h2 ▸ le_refl _
  · exact h.1 u h2

theorem le_maxPriority : ∀ (ts : List TaskMessage), ∀ u ∈ ts,
    u.priority ≤ maxPriority ts := by
  intro ts
  induction ts with
  | nil => intro u hu; cases hu
  | cons t ts ih =>
    intro u hu
    cases ts with
    | nil =>
      rcases List.mem_cons.mp hu with h2 | h2
      · exact h2 ▸ le_refl _
      · cases h2
    | cons v vs =>
      rw [maxPriority]
      rcases List.mem_cons.mp hu with h2 | h2
      · exact h2 ▸ le_max_left _ _
      · exact le_trans (ih u h2) (le_max_right _ _)

theorem maxPriority_mem : ∀ (ts : List TaskMessage), ts ≠ [] →
    ∃ u ∈ ts, u.priority = maxPriority ts := by
  intro ts
  induction ts with
  | nil => intro h; exact absurd rfl h
  | cons t ts ih =>
    intro _
    cases ts with
    | nil => exact ⟨t, List.mem_cons_self t [], rfl⟩
    | cons v vs =>
      rcases ih (by simp) with ⟨u, hu, he⟩
      rw [maxPriority]
      rcases le_total t.priority (maxPriority (v :: vs)) with hc | hc
      · exact ⟨u, List.mem_cons_of_mem t hu, by rw [he, max_eq_right hc]⟩
      · exact ⟨t, List.mem_cons_self t _, by rw [max_eq_left hc]⟩

theorem maxPriority_eq {ts : List TaskMessage} {h1 : TaskMessage}
    (hm : h1 ∈ ts) (hb : ∀ u ∈ ts, u.priority ≤ h1.priority) :
    maxPriority ts = h1.priority := by
  rcases maxPriority_mem ts (List.ne_nil_of_mem hm) with ⟨u, hu, he⟩
  exact le_antisymm (he ▸ hb u hu) (le_maxPriority ts h1 hm)

/-! Claim theorems. -/

/-- C9: `get_workflow_status` is total and never raises — for every
unregistered workflow id it returns the normal `not_found` result, and for a
registered workflow with an empty task list it returns zero counts and
progress 0 without dividing by zero.  (Totality itself is by construction:
`get_workflow_status` is a total Lean function.) -/
theorem get_workflow_status_total_and_safe :
    (∀ (s : WorkflowOrchestrator) (wid : String),
        wfLookup wid s.active_workflows = none →
        get_workflow_status wid s = .not_found) ∧
    (∀ (s : WorkflowOrchestrator) (wid : String),
        wfLookup wid s.active_workflows = some [] →
        get_workflow_status wid s = .active 0 0 0 0) := by
  constructor
  · intro s wid h
    unfold get_workflow_status
    rw [h]
  · intro s wid h
    unfold get_workflow_status
    rw [h]
    simp

/-- Witness for C9 at concrete states: an unregistered id on a fresh
orchestrator, and a registered workflow with an empty task list. -/
theorem get_workflow_status_total_and_safe_witness :
    wfLookup "u" emptyOrch.active_workflows = none ∧
    get_workflow_status "u" emptyOrch = .not_found ∧
    wfLookup "w" (⟨[], [], [("w", [])]⟩ : WorkflowOrchestrator).active_workflows
      = some [] ∧
    get_workflow_status "w" ⟨[], [], [("w", [])]⟩ = .active 0 0 0 0 :=
  ⟨by decide, get_workflow_status_total_and_safe.1 emptyOrch "u" (by decide),
   by decide, get_workflow_status_total_and_safe.2 ⟨[], [], [("w", [])]⟩ "w" (by decide)⟩

/-- C10: for every registered workflow id the reported status is `"active"`,
even when every task of the workflow is completed (the concrete conjunct shows
a fully completed workflow with progress 1 still reported `"active"`); the
only status strings the interface ever produces are `"not_found"` and
`"active"`. -/
theorem registered_workflow_status_always_active :
    (∀ (s : WorkflowOrchestrator) (wid : String) (ts : List TaskMessage),
        wfLookup wid s.active_workflows = some ts →
        statusName (get_workflow_status wid s) = "active") ∧
    (∀ (s : WorkflowOrchestrator) (wid : String),
        statusName (get_workflow_status wid s) = "not_found" ∨
        statusName (get_workflow_status wid s) = "active") ∧
    get_workflow_status "w" ⟨[], [wfTask1], [("w", [wfTask1])]⟩
      = .active 1 1 0 1 := by
  refine ⟨?_, ?_, ?_⟩
  · intro s wid ts h
    unfold get_workflow_status
    rw [h]
    rfl
  · intro s wid
    unfold get_workflow_status
    cases wfLookup wid s.active_workflows with
    | none => left; rfl
    | some ts => right; rfl
  · simp +decide [get_workflow_status, wfLookup, wfTask1]

/-- Witness for C10: a registered workflow id on a concrete state. -/
theorem registered_workflow_status_always_active_witness :
    wfLookup "w" (⟨[], [wfTask1], [("w", [wfTask1])]⟩ :
        WorkflowOrchestrator).active_workflows = some [wfTask1] ∧
    statusName (get_workflow_status "w" ⟨[], [wfTask1], [("w", [wfTask1])]⟩)
      = "active" :=
  ⟨by decide,
   registered_workflow_status_always_active.1 ⟨[], [wfTask1], [("w", [wfTask1])]⟩
     "w" [wfTask1] (by decide)⟩

/-- C7: `create_workflow` on an already registered workflow id does not fail
(it is a total function): it silently overwrites the registry entry with the
new task list and still enqueues every task of the new list. -/
theorem create_workflow_overwrites_duplicate :
    ∀ (s : WorkflowOrchestrator) (wid : String) (oldTasks newTasks : List TaskMessage),
      wfLookup wid s.active_workflows = some oldTasks →
      wfLookup wid (create_workflow wid newTasks s).active_workflows = some newTasks ∧
      (create_workflow wid newTasks s).task_queue.Perm (s.task_queue ++ newTasks) ∧
      ∀ t ∈ newTasks, t ∈ (create_workflow wid newTasks s).task_queue := by
  intro s wid oldTasks newTasks _
  refine ⟨?_, create_workflow_queue_perm wid newTasks s, ?_⟩
  · rw [create_workflow_workflows]
    exact wfLookup_wfInsert_self wid newTasks s.active_workflows
  · intro t ht
    exact ((create_workflow_queue_perm wid newTasks s).mem_iff).mpr
      (List.mem_append.mpr (Or.inr ht))

/-- Witness for C7: overwriting the registered workflow "w". -/
theorem create_workflow_overwrites_duplicate_witness :
    wfLookup "w" (⟨[], [], [("w", [wfTask1])]⟩ :
        WorkflowOrchestrator).active_workflows = some [wfTask1] ∧
    (wfLookup "w" (create_workflow "w" [wfTask2]
        ⟨[], [], [("w", [wfTask1])]⟩).active_workflows = some [wfTask2] ∧
      (create_workflow "w" [wfTask2]
          ⟨[], [], [("w", [wfTask1])]⟩).task_queue.Perm
        ((⟨[], [], [("w", [wfTask1])]⟩ :
            WorkflowOrchestrator).task_queue ++ [wfTask2]) ∧
      ∀ t ∈ [wfTask2], t ∈ (create_workflow "w" [wfTask2]
          ⟨[], [], [("w", [wfTask1])]⟩).task_queue) :=
  ⟨by decide, create_workflow_overwrites_duplicate ⟨[], [], [("w", [wfTask1])]⟩
    "w" [wfTask1] [wfTask2] (by decide)⟩

/-- C8: on an orchestrator whose queue and completed list contain no task
equal to any of the given ones, `create_workflow` immediately followed by
`get_workflow_status` reports `total = pending = len(tasks)`, `completed = 0`
and `progress = 0`. -/
theorem create_workflow_then_status_fresh :
    ∀ (s : WorkflowOrchestrator) (wid : String) (tasks : List TaskMessage),
      (∀ t ∈ tasks, t ∉ s.task_queue) →
      (∀ t ∈ tasks, t ∉ s.completed_tasks) →
      get_workflow_status wid (create_workflow wid tasks s) =
        .active tasks.length 0 tasks.length 0 := by
  intro s wid tasks hq hc
  have hwf : wfLookup wid (create_workflow wid tasks s).active_workflows
      = some tasks := by
    rw [create_workflow_workflows]
    exact wfLookup_wfInsert_self _ _ _
  have hcomp : tasks.filter
      (fun t => decide (t ∈ (create_workflow wid tasks s).completed_tasks)) = [] := by
    rw [List.filter_eq_nil_iff]
    intro t ht
    rw [create_workflow_completed]
    simpa using hc t ht
  have hpend : tasks.filter
      (fun t => decide (t ∈ (create_workflow wid tasks s).task_queue)) = tasks := by
    rw [List.filter_eq_self]
    intro t ht
    simpa using ((create_workflow_queue_perm wid tasks s).mem_iff).mpr
      (List.mem_append.mpr (Or.inr ht))
  unfold get_workflow_status
  rw [hwf]
  simp only [hcomp, hpend, List.length_nil, Nat.cast_zero]
  split
  · rename_i he
    simp [he]
  · simp [zero_div]

/-- Witness for C8: a fresh workflow of one task on a fresh orchestrator. -/
theorem create_workflow_then_status_fresh_witness :
    (∀ t ∈ [wfTask1], t ∉ emptyOrch.task_queue) ∧
    (∀ t ∈ [wfTask1], t ∉ emptyOrch.completed_tasks) ∧
    get_workflow_status "w" (create_workflow "w" [wfTask1] emptyOrch) =
      .active 1 0 1 0 :=
  ⟨by decide, by decide,
   create_workflow_then_status_fresh emptyOrch "w" [wfTask1] (by decide) (by decide)⟩

/-- C1: for every registered workflow id, `execute_workflow` drains the entire
global task queue — the returned per-task results cover every queued task in
queue (priority) order, every popped task is appended to the completed list,
and the queue ends empty.  The concrete conjuncts replay the specification
scenario: `create_workflow "wf1" [t1, t2]` with priorities 1 and 5 on a fresh
orchestrator, then `execute_workflow "wf1"`, completes both tasks (the
priority-5 task first) and `get_workflow_status "wf1"` then reports
`completed = 2`, `pending = 0`, `progress = 1`. -/
theorem execute_workflow_drains_global_queue :
    (∀ (s : WorkflowOrchestrator) (wid : String) (ts : List TaskMessage),
        wfLookup wid s.active_workflows = some ts →
        execute_workflow wid s =
          (.success wid "completed" (s.task_queue.map mkTaskResult),
           { s with task_queue := [],
                    completed_tasks := s.completed_tasks ++ s.task_queue })) ∧
    get_workflow_status "wf1"
        (execute_workflow "wf1" (create_workflow "wf1" [wfTask1, wfTask2] emptyOrch)).2
      = .active 2 2 0 1 ∧
    (execute_workflow "wf1" (create_workflow "wf1" [wfTask1, wfTask2] emptyOrch)).1
      = .success "wf1" "completed" [mkTaskResult wfTask2, mkTaskResult wfTask1] := by
  refine ⟨fun s wid ts h => execute_workflow_spec wid s ts h, ?_, ?_⟩
  · simp +decide [get_workflow_status, execute_workflow, create_workflow, add_task,
      emptyOrch, wfInsert, wfLookup, execLoop, get_next_task, complete_task,
      sortDescStable, orderedInsertDesc, wfTask1, wfTask2]
  · simp +decide [execute_workflow, create_workflow, add_task, emptyOrch, wfInsert,
      wfLookup, execLoop, get_next_task, complete_task, sortDescStable,
      orderedInsertDesc, mkTaskResult, wfTask1, wfTask2]

/-- Witness for C1: executing a registered workflow on a concrete state with a
nonempty global queue. -/
theorem execute_workflow_drains_global_queue_witness :
    wfLookup "w" (⟨[wfTask1], [], [("w", [wfTask1])]⟩ :
        WorkflowOrchestrator).active_workflows = some [wfTask1] ∧
    execute_workflow "w" ⟨[wfTask1], [], [("w", [wfTask1])]⟩ =
      (.success "w" "completed" [mkTaskResult wfTask1],
       ⟨[], [wfTask1], [("w", [wfTask1])]⟩) :=
  ⟨by decide,
   execute_workflow_drains_global_queue.1 ⟨[wfTask1], [], [("w", [wfTask1])]⟩
     "w" [wfTask1] (by decide)⟩

/-- C2: after any nonempty sequence of `add_task` calls on a fresh
orchestrator, `get_next_task` removes and returns the queued task of maximum
priority, and among tasks of equal maximal priority the earliest-added one
(the first task of the insertion sequence whose priority equals the maximum);
the concrete conjunct checks the specification scenario: priorities
[1, 3, 3, 2] inserted in that order sit in the queue — hence are popped — in
the order [first 3, second 3, 2, 1]. -/
theorem get_next_task_highest_priority_stable :
    (∀ ts : List TaskMessage, ts ≠ [] →
      (∀ u ∈ ts, u.priority ≤ maxPriority ts) ∧
      get_next_task (addTasks ts) =
        (ts.find? (fun u => decide (u.priority = maxPriority ts)),
         { addTasks ts with task_queue := (addTasks ts).task_queue.tail })) ∧
    (addTasks [prTask1, prTask3a, prTask3b, prTask2]).task_queue =
      [prTask3a, prTask3b, prTask2, prTask1] := by
  constructor
  · intro ts hne
    refine ⟨le_maxPriority ts, ?_⟩
    have hsorted0 : QSorted (emptyOrch.task_queue) := List.Pairwise.nil
    have hqeq : (addTasks ts).task_queue =
        ts.foldl (fun q t => insertTailDesc t q) [] :=
      foldl_add_task_queue_eq ts emptyOrch hsorted0
    have hsorted : QSorted ((addTasks ts).task_queue) := by
      rw [hqeq]; exact foldl_insertTailDesc_sorted ts [] List.Pairwise.nil
    have hperm : ((addTasks ts).task_queue).Perm ts := by
      rw [hqeq]; simpa using foldl_insertTailDesc_perm ts []
    have hfil : ∀ c : Int,
        ((addTasks ts).task_queue).filter (fun u => decide (u.priority = c)) =
          ts.filter (fun u => decide (u.priority = c)) := by
      intro c
      rw [hqeq]
      simpa using foldl_insertTailDesc_filter c ts [] List.Pairwise.nil
    match hq : (addTasks ts).task_queue with
    | [] =>
      exfalso
      apply hne
      have h2 := hperm.length_eq
      rw [hq] at h2
      simp at h2
      exact List.length_eq_zero.mp h2.symm
    | h1 :: rest =>
      have hmax : maxPriority ts = h1.priority := by
        refine maxPriority_eq (hperm.mem_iff.mp (hq ▸ List.mem_cons_self h1 rest)) ?_
        intro u hu
        exact QSorted_head_max (hq ▸ hsorted) u (hq ▸ hperm.mem_iff.mpr hu)
      have hfind : ts.find? (fun u => decide (u.priority = maxPriority ts))
          = some h1 := by
        rw [← List.filter_head?, ← hfil (maxPriority ts), hq]
        rw [List.filter_cons, if_pos (by simp [hmax])]
        rfl
      rw [hfind]
      unfold get_next_task
      rw [hq]
      simp
  · decide

/-- Witness for C2: a concrete nonempty insertion sequence with a priority tie. -/
theorem get_next_task_highest_priority_stable_witness :
    ([prTask1, prTask3a, prTask3b, prTask2] : List TaskMessage) ≠ [] ∧
    ((∀ u ∈ [prTask1, prTask3a, prTask3b, prTask2],
        u.priority ≤ maxPriority [prTask1, prTask3a, prTask3b, prTask2]) ∧
      get_next_task (addTasks [prTask1, prTask3a, prTask3b, prTask2]) =
        ([prTask1, prTask3a, prTask3b, prTask2].find?
            (fun u => decide (u.priority =
              maxPriority [prTask1, prTask3a, prTask3b, prTask2])),
         { addTasks [prTask1, prTask3a, prTask3b, prTask2] with
            task_queue :=
              (addTasks [prTask1, prTask3a, prTask3b, prTask2]).task_queue.tail })) :=
  ⟨by decide, get_next_task_highest_priority_stable.1
    [prTask1, prTask3a, prTask3b, prTask2] (by decide)⟩

/-- C3: in the `Team.run` round loop, every state at which the execution
delegate `env.run` is invoked (every round body that begins) has
`total_cost < max_budget`; and if `total_cost >= max_budget` holds before a
round (rounds remain and the environment is not idle), the loop terminates
with the out-of-funds failure without invoking `env.run` at all. -/
theorem team_run_budget_law :
    ∀ (E : Type) (isIdle : E → Bool) (envRun : TeamRunState E → TeamRunState E)
      (max_budget : ℚ) (n : Nat) (st : TeamRunState E),
      (∀ st1 ∈ (teamRun isIdle envRun max_budget n st).2,
          st1.total_cost < max_budget) ∧
      (max_budget ≤ st.total_cost → isIdle st.env = false → 0 < n →
        teamRun isIdle envRun max_budget n st = (.noMoney st.total_cost, [])) := by
  intro E isIdle envRun max_budget n
  induction n with
  | zero =>
    intro st
    refine ⟨?_, ?_⟩
    · intro st1 h
      simp [teamRun] at h
    · intro _ _ h
      exact absurd h (lt_irrefl 0)
  | succ n ih =>
    intro st
    refine ⟨?_, ?_⟩
    · intro st1 h
      unfold teamRun at h
      by_cases hidle : isIdle st.env
      · rw [if_pos hidle] at h
        simp at h
      · rw [if_neg hidle] at h
        unfold check_balance at h
        by_cases hbal : max_budget ≤ st.total_cost
        · rw [if_pos hbal] at h
          simp at h
        · rw [if_neg hbal] at h
          simp only [List.mem_cons] at h
          rcases h with h | h
          · rw [h]
            exact lt_of_not_le hbal
          · exact (ih (envRun st)).1 st1 h
    · intro hcost hidle _
      unfold teamRun
      rw [if_neg (by rw [hidle]; exact Bool.false_ne_true)]
      unfold check_balance
      rw [if_pos hcost]

/-- Witness for C3: a non-idle environment, budget 3, starting cost 5 —
the loop signals the out-of-funds failure without running a round. -/
theorem team_run_budget_law_witness :
    (3 : ℚ) ≤ (⟨(), 5⟩ : TeamRunState Unit).total_cost ∧
    (fun _ : Unit => false) (⟨(), 5⟩ : TeamRunState Unit).env = false ∧
    0 < 2 ∧
    teamRun (fun _ : Unit => false) (fun st => st) 3 2 ⟨(), 5⟩ =
      (.noMoney 5, []) :=
  ⟨by norm_num, rfl, by decide,
   (team_run_budget_law Unit (fun _ => false) (fun st => st) 3 2 ⟨(), 5⟩).2
     (by norm_num) rfl (by decide)⟩

/-- Concrete same-id tasks differing in `content`, used to decide the
membership-semantics claims. -/
def idTaskA : TaskMessage := ⟨"x1", "k", "alpha", "s", none, 0, []⟩

def idTaskB : TaskMessage := ⟨"x1", "k", "beta", "s", none, 0, []⟩

/-- C5 counterexample: two `TaskMessage` instances with the same `task_id` but
different `content` are NOT treated as the same task by
`get_workflow_status` — with only the same-id variant in the completed list
the workflow's completed count is 0, while the structurally equal task yields
count 1.  Membership is pydantic structural equality on all fields, not
identity by id. -/
theorem status_counts_by_id_refutation :
    idTaskA.task_id = idTaskB.task_id ∧ idTaskA ≠ idTaskB ∧
    completedCountOf (get_workflow_status "w"
      ⟨[], [idTaskB], [("w", [idTaskA])]⟩) = 0 ∧
    completedCountOf (get_workflow_status "w"
      ⟨[], [idTaskA], [("w", [idTaskA])]⟩) = 1 := by
  refine ⟨by decide, by decide, ?_, ?_⟩ <;>
    simp +decide [get_workflow_status, wfLookup, completedCountOf, idTaskA, idTaskB]

/-- C5 amended: membership of a workflow's tasks in the queue and in the
completed list is decided by full structural equality of all fields: with the
workflow `[t]` and exactly `[u]` completed (resp. queued), the completed
(resp. pending) count is 1 precisely when `t = u` as whole records — sharing
`task_id` alone does not suffice. -/
theorem status_counts_by_structural_equality :
    ∀ t u : TaskMessage, t.task_id = u.task_id →
      completedCountOf (get_workflow_status "w" ⟨[], [u], [("w", [t])]⟩) =
        (if t = u then 1 else 0) ∧
      pendingCountOf (get_workflow_status "w" ⟨[u], [], [("w", [t])]⟩) =
        (if t = u then 1 else 0) := by
  intro t u _
  by_cases h : t = u <;>
    simp [get_workflow_status, wfLookup, completedCountOf, pendingCountOf, h,
      List.filter_cons]

/-- Witness for C5 (amended): evaluated at the concrete same-id pair. -/
theorem status_counts_by_structural_equality_witness :
    idTaskA.task_id = idTaskB.task_id ∧
    (completedCountOf (get_workflow_status "w"
        ⟨[], [idTaskB], [("w", [idTaskA])]⟩) =
      (if idTaskA = idTaskB then 1 else 0) ∧
     pendingCountOf (get_workflow_status "w"
        ⟨[idTaskB], [], [("w", [idTaskA])]⟩) =
      (if idTaskA = idTaskB then 1 else 0)) :=
  ⟨by decide, status_counts_by_structural_equality idTaskA idTaskB (by decide)⟩

/-- C6 counterexample: completing a task whose id is already in the completed
set CAN change the counts — with the same-id-different-content variant
`idTaskB` completed, the workflow over `[idTaskA]` reports 0 completed, and
calling `complete_task idTaskA` raises the count to 1 (membership is
structural, not by id). -/
theorem complete_task_same_id_not_idempotent_refutation :
    idTaskA.task_id ∈ completedIds ⟨[], [idTaskB], [("w", [idTaskA])]⟩ ∧
    completedCountOf (get_workflow_status "w"
      ⟨[], [idTaskB], [("w", [idTaskA])]⟩) = 0 ∧
    completedCountOf (get_workflow_status "w"
      (complete_task idTaskA ⟨[], [idTaskB], [("w", [idTaskA])]⟩)) = 1 := by
  refine ⟨by decide, ?_, ?_⟩ <;>
    simp +decide [get_workflow_status, wfLookup, complete_task, completedCountOf,
      idTaskA, idTaskB]

/-- C6 amended: completing a task that is already an element of the completed
list (structurally equal, all fields — not merely sharing its id) leaves every
workflow's status, hence all counts, unchanged; independently, for every
workflow, `progress` is monotone non-decreasing under any `complete_task` call
and never exceeds 1. -/
theorem complete_task_idempotent_progress_monotone :
    (∀ (s : WorkflowOrchestrator) (t : TaskMessage) (wid : String),
        t ∈ s.completed_tasks →
        get_workflow_status wid (complete_task t s) = get_workflow_status wid s) ∧
    (∀ (s : WorkflowOrchestrator) (t : TaskMessage) (wid : String),
        progressOf (get_workflow_status wid s) ≤
          progressOf (get_workflow_status wid (complete_task t s))) ∧
    (∀ (s : WorkflowOrchestrator) (wid : String),
        progressOf (get_workflow_status wid s) ≤ 1) := by
  have hmem : ∀ (c : List TaskMessage) (t x : TaskMessage),
      decide (x ∈ c) = true → decide (x ∈ c ++ [t]) = true := by
    intro c t x hx
    simp only [decide_eq_true_eq] at hx
    simp [List.mem_append, hx]
  refine ⟨?_, ?_, ?_⟩
  · intro s t wid ht
    simp only [get_workflow_status, complete_task]
    cases hw : wfLookup wid s.active_workflows with
    | none => rfl
    | some ts =>
      have hfil : ts.filter (fun x => decide (x ∈ s.completed_tasks ++ [t])) =
          ts.filter (fun x => decide (x ∈ s.completed_tasks)) := by
        apply List.filter_congr
        intro x _
        rw [decide_eq_decide]
        constructor
        · intro hx
          rcases List.mem_append.mp hx with h1 | h1
          · exact h1
          · rw [List.mem_singleton.mp h1]
            exact ht
        · intro hx
          exact List.mem_append.mpr (Or.inl hx)
      simp only [hfil]
  · intro s t wid
    simp only [get_workflow_status, complete_task]
    cases hw : wfLookup wid s.active_workflows with
    | none => simp [progressOf]
    | some ts =>
      simp only [progressOf]
      by_cases hts : ts = []
      · simp [hts]
      · rw [if_neg hts, if_neg hts]
        have hlen : (ts.filter (fun x => decide (x ∈ s.completed_tasks))).length ≤
            (ts.filter (fun x => decide (x ∈ s.completed_tasks ++ [t]))).length :=
          (List.monotone_filter_right ts (hmem s.completed_tasks t)).length_le
        have hL : (0 : ℚ) < (ts.length : ℚ) := by
          exact_mod_cast List.length_pos.mpr hts
        exact (div_le_div_iff_of_pos_right hL).mpr (by exact_mod_cast hlen)
  · intro s wid
    simp only [get_workflow_status]
    cases hw : wfLookup wid s.active_workflows with
    | none => simp [progressOf]
    | some ts =>
      simp only [progressOf]
      by_cases hts : ts = []
      · simp [hts]
      · rw [if_neg hts]
        have hL : (0 : ℚ) < (ts.length : ℚ) := by
          exact_mod_cast List.length_pos.mpr hts
        rw [div_le_one hL]
        exact_mod_cast List.length_filter_le _ ts

/-- Witness for C6 (amended): re-completing an already completed task on a
concrete state leaves the workflow status unchanged. -/
theorem complete_task_idempotent_progress_monotone_witness :
    wfTask1 ∈ (⟨[], [wfTask1], [("w", [wfTask1])]⟩ :
        WorkflowOrchestrator).completed_tasks ∧
    get_workflow_status "w"
        (complete_task wfTask1 ⟨[], [wfTask1], [("w", [wfTask1])]⟩) =
      get_workflow_status "w" ⟨[], [wfTask1], [("w", [wfTask1])]⟩ :=
  ⟨by decide, complete_task_idempotent_progress_monotone.1
    ⟨[], [wfTask1], [("w", [wfTask1])]⟩ wfTask1 "w" (by decide)⟩

/-- C4 counterexample: the unrestricted operation sequence
`add_task t; complete_task t` (both are public methods) reaches a state whose
queue still contains `t` while `t.task_id` is in the completed set —
`complete_task` never removes from the queue, so the disjointness invariant
does not hold for arbitrary call sequences. -/
theorem queue_completed_disjoint_refutation :
    wfTask1 ∈ (complete_task wfTask1 (add_task wfTask1 emptyOrch)).task_queue ∧
    wfTask1.task_id ∈ completedIds (complete_task wfTask1 (add_task wfTask1 emptyOrch)) ∧
    ¬ queueCompletedDisjoint (complete_task wfTask1 (add_task wfTask1 emptyOrch)) := by
  decide

/-- Preservation of the disjointness invariant by one guarded step. -/
theorem orchStep_preserves_disjoint {s s1 : WorkflowOrchestrator}
    (hstep : OrchStep s s1) (ih : queueCompletedDisjoint s) :
    queueCompletedDisjoint s1 := by
  cases hstep with
  | add t _ hguard =>
    intro x hx u hu
    have hx1 := (add_task_queue_perm t s).mem_iff.mp hx
    rcases List.mem_append.mp hx1 with h1 | h1
    · exact ih x h1 u hu
    · rw [List.mem_singleton.mp h1]
      intro heq
      exact hguard (heq ▸ List.mem_map_of_mem (fun v => v.task_id) hu)
  | next _ =>
    unfold get_next_task
    cases hq : s.task_queue with
    | nil =>
      intro x hx u hu
      exact ih x hx u hu
    | cons t rest =>
      intro x hx u hu
      exact ih x (by rw [hq]; exact List.mem_cons_of_mem t hx) u hu
  | complete t _ hguard =>
    intro x hx u hu
    rcases List.mem_append.mp hu with h1 | h1
    · exact ih x hx u h1
    · rw [List.mem_singleton.mp h1]
      exact fun heq => hguard x hx heq.symm
  | createWf wid ts _ hguard =>
    intro x hx u hu
    have hx1 := (create_workflow_queue_perm wid ts s).mem_iff.mp hx
    rw [create_workflow_completed] at hu
    rcases List.mem_append.mp hx1 with h1 | h1
    · exact ih x h1 u hu
    · intro heq
      exact hguard x h1 (heq ▸ List.mem_map_of_mem (fun v => v.task_id) hu)
  | execWf wid _ =>
    unfold execute_workflow
    cases hw : wfLookup wid s.active_workflows with
    | none =>
      intro x hx u hu
      exact ih x hx u hu
    | some ts =>
      have hdrain := execLoop_drains s.task_queue.length s (le_refl _)
      rw [hdrain]
      intro x hx
      cases hx

/-- C4 amended: the queue/completed-set disjointness invariant holds for every
state reachable by guarded operation sequences — where tasks are only admitted
(by `add_task` or `create_workflow`) while their id is not yet in the
completed set, and `complete_task` is only applied to tasks no longer queued
(as `execute_workflow`'s pop-then-complete loop does). -/
theorem guarded_reachable_queue_completed_disjoint :
    ∀ s : WorkflowOrchestrator, OrchReachable s → queueCompletedDisjoint s := by
  intro s h
  induction h with
  | init =>
    intro t ht
    cases ht
  | step hr hstep ih => exact orchStep_preserves_disjoint hstep ih

/-- Witness for C4 (amended): a nontrivial guarded trace — admit a task, pop
it, then complete it — ends in a state satisfying the invariant. -/
theorem guarded_reachable_queue_completed_disjoint_witness :
    queueCompletedDisjoint
      (complete_task wfTask1 (get_next_task (add_task wfTask1 emptyOrch)).2) :=
  guarded_reachable_queue_completed_disjoint _
    (OrchReachable.step
      (OrchReachable.step
        (OrchReachable.step OrchReachable.init
          (OrchStep.add wfTask1 emptyOrch (by decide)))
        (OrchStep.next (add_task wfTask1 emptyOrch)))
      (OrchStep.complete wfTask1 (get_next_task (add_task wfTask1 emptyOrch)).2
        (by decide)))
